import Mathlib

/-!
Verification of the HelpingAI-JS tool resolution and invocation subsystem:
a shallow embedding, in Lean 4, of the schema inferencer
(`src/tools/schema.ts`), the tool registry (`src/tools/registry.ts`), the
core dispatch helpers (`src/tools/core.ts`), the built-in tool base and
tools (`src/tools/builtin/*`), the MCP client and manager (`src/mcp/*`) and
the client's direct tool execution method (`src/client.ts`, `HelpingAI.call`),
followed by theorems about the embedded code.

Conventions of the embedding:
* JavaScript objects / `Map`s are association lists in insertion order;
  `Map.set` of a fresh key appends, of a present key replaces in place.
* Asynchronous functions that can reject are total functions into
  `Except HAIError _`; a thrown error is `Except.error`.
* External effects (the network call of the web-search tool, the Python
  subprocess of the code interpreter, the remote MCP round trip) are
  injected as function parameters, so that a theorem can show a result does
  or does not depend on them.
* Machine strings are Lean `String`s; the regular expressions of
  `schema.js` are implemented as explicit backtracking functions over
  `List Char`, documented inline clause by clause.
-/

namespace HAI

/-! ## JSON-ish values and argument maps -/

/-- A JavaScript value as far as the tools subsystem inspects one.
Arrays and nested objects are not needed by any claim: the dispatch code
never looks inside argument values except for the scalar cases modelled
here.  A float default value is kept as its source literal (the parsed
IEEE value is never consumed by the subsystem). -/
inductive Value where
  | null
  | bool (b : Bool)
  | int (n : Int)
  | float (lit : String)
  | str (s : String)
deriving DecidableEq, Repr

/-- A JavaScript argument object `Record<string, any>`: keys are unique,
in insertion order. -/
def Args := List (String × Value)

instance : DecidableEq Args := by
  unfold Args; infer_instance

/-- Key lookup, `args[k]` / `k in args`. -/
def lookupArg (args : Args) (k : String) : Option Value :=
  (List.find? (fun kv => kv.1 = k) args).map (fun kv => kv.2)

/-! ## JSON.stringify, for the scalar shapes the embedded code produces -/

/-- JSON string escaping of one character (quote, backslash and the three
common control characters; other control characters do not occur in the
inputs considered). -/
def jsonEscapeChar (c : Char) : String :=
  if c = '"' then "\\\""
  else if c = '\\' then "\\\\"
  else if c = '\n' then "\\n"
  else if c = '\t' then "\\t"
  else if c = '\r' then "\\r"
  else String.mk [c]

/-- `JSON.stringify` of a string. -/
def jsonQuote (s : String) : String :=
  "\"" ++ String.join (s.toList.map jsonEscapeChar) ++ "\""

/-- `JSON.stringify` of a scalar value. -/
def stringifyValue : Value → String
  | .null => "null"
  | .bool b => if b then "true" else "false"
  | .int n => toString n
  | .float lit => lit
  | .str s => jsonQuote s

/-- Join a list of strings with a separator (JS `Array.join`). -/
def joinWith (sep : String) : List String → String
  | [] => ""
  | [s] => s
  | s :: rest => s ++ sep ++ joinWith sep rest

/-- `JSON.stringify` of an argument object. -/
def stringifyArgs (args : Args) : String :=
  "\x7b" ++ joinWith "," (args.map (fun kv => jsonQuote kv.1 ++ ":" ++ stringifyValue kv.2)) ++ "\x7d"

/-! ## Errors (`src/errors.ts`)

Every error class of `errors.ts` sets a `name` field; the plain JavaScript
`Error` used by `core.ts`'s `executeTool` wrapper and by
`BuiltinToolBase.validateParameters` carries the name `"Error"`. -/

inductive HAIError where
  | toolExecutionError (message : String) (toolName : Option String)
  | toolRegistrationError (message : String)
  | schemaValidationError (message : String)
  | mcpError (message : String) (serverName : Option String)
  | jsError (message : String)
deriving DecidableEq, Repr

/-- The `name` field of the thrown error object, as each constructor in
`errors.ts` assigns it. -/
def HAIError.errorName : HAIError → String
  | .toolExecutionError .. => "ToolExecutionError"
  | .toolRegistrationError _ => "ToolRegistrationError"
  | .schemaValidationError _ => "SchemaValidationError"
  | .mcpError .. => "MCPError"
  | .jsError _ => "Error"

/-- The `message` field of the error. -/
def HAIError.message : HAIError → String
  | .toolExecutionError m _ => m
  | .toolRegistrationError m => m
  | .schemaValidationError m => m
  | .mcpError m _ => m
  | .jsError m => m

/-- The error name of the rejection of a call, when it rejected. -/
def errNameOf {α : Type} : Except HAIError α → Option String
  | .error e => some e.errorName
  | .ok _ => none

/-! ## Tool declarations (OpenAI format, `src/types.ts`) -/

/-- One entry of `parameters.properties`.  The inference in `schema.js`
fills `type` and `description` (and would copy an `enum`, a dead branch);
the statically authored built-in schemas additionally carry `default`,
`minimum` and `maximum`. -/
structure PropertySchema where
  type : String
  description : String
  enum : Option (List Value) := none
  default : Option Value := none
  minimum : Option Int := none
  maximum : Option Int := none
deriving DecidableEq, Repr

/-- The `parameters` object of a declaration. -/
structure ParametersSchema where
  type : String := "object"
  properties : List (String × PropertySchema) := []
  required : List String := []
deriving DecidableEq, Repr

/-- The `function` part of an OpenAI-format tool. -/
structure FunctionDecl where
  name : String
  description : String
  parameters : ParametersSchema
deriving DecidableEq, Repr

/-- An OpenAI-format tool declaration, `{ type: 'function', function: … }`. -/
structure Tool where
  type : String := "function"
  function : FunctionDecl
deriving DecidableEq, Repr

/-- The name of a declaration, `tool.function.name`. -/
def Tool.fname (t : Tool) : String :=
  t.function.name

/-! ## The tool registry (`src/tools/registry.ts`)

`ToolRegistry` wraps a JavaScript `Map<string, ToolEntry>`: an association
list in insertion order with unique keys.  `Map.delete` of a key removes
its (unique) entry; on lists with unique keys this is the same as
filtering the key out, which is how it is written here. -/

/-- `ToolEntry { tool, fn }`: the declaration and the callable. -/
structure ToolEntry where
  tool : Tool
  fn : Args → Except HAIError Value

/-- The registry state: the `tools` map. -/
structure ToolRegistry where
  tools : List (String × ToolEntry)

/-- The empty registry (`new ToolRegistry()`), also the state after `clear()`. -/
def ToolRegistry.empty : ToolRegistry := ⟨[]⟩

/-- `has(name)`. -/
def ToolRegistry.has (r : ToolRegistry) (name : String) : Bool :=
  r.tools.any (fun p => p.1 = name)

/-- `get(name)`. -/
def ToolRegistry.get (r : ToolRegistry) (name : String) : Option ToolEntry :=
  (r.tools.find? (fun p => p.1 = name)).map (fun p => p.2)

/-- `register(name, tool, fn)`: throws `ToolRegistrationError` when the name
is already present, otherwise inserts (appends, as `Map.set` of a fresh
key does). -/
def ToolRegistry.register (r : ToolRegistry) (name : String) (tool : Tool)
    (fn : Args → Except HAIError Value) : Except HAIError ToolRegistry :=
  if r.has name then
    .error (.toolRegistrationError ("Tool '" ++ name ++ "' is already registered"))
  else
    .ok ⟨r.tools ++ [(name, ⟨tool, fn⟩)]⟩

/-- `remove(name)`: `Map.delete`, returning the new state and whether the
key was present. -/
def ToolRegistry.remove (r : ToolRegistry) (name : String) : ToolRegistry × Bool :=
  (⟨r.tools.filter (fun p => ¬ p.1 = name)⟩, r.has name)

/-- `listToolNames()`. -/
def ToolRegistry.listToolNames (r : ToolRegistry) : List String :=
  r.tools.map (fun p => p.1)

/-- `getToolsArray(names?)`: declarations of the given names (skipping
names not found), or of everything when `names` is omitted. -/
def ToolRegistry.getToolsArray (r : ToolRegistry) (names : Option (List String)) : List Tool :=
  let entries : List ToolEntry := match names with
    | some ns => ns.filterMap (fun n => r.get n)
    | none => r.tools.map (fun p => p.2)
  entries.map (fun e => e.tool)

/-- The registry states reachable through the registry's interface:
empty (construction or `clear()`), a successful `register`, a `remove`. -/
inductive ToolRegistry.Reachable : ToolRegistry → Prop where
  | empty : ToolRegistry.Reachable ToolRegistry.empty
  | ofRegister {r r' : ToolRegistry} {n : String} {t : Tool}
      {f : Args → Except HAIError Value} :
      ToolRegistry.Reachable r → r.register n t f = .ok r' → ToolRegistry.Reachable r'
  | ofRemove {r : ToolRegistry} {n : String} :
      ToolRegistry.Reachable r → ToolRegistry.Reachable (r.remove n).1

/-! ## Core dispatch helpers (`src/tools/core.ts`) -/

/-- `executeTool(name, args)`: looks the entry up in the registry and calls
the callable with the argument object; a missing entry throws
`ToolRegistrationError`, a callable failure is wrapped in a plain
`Error("Tool execution failed: …")`.  No argument validation happens on
this path (`validateToolArguments` of `schema.js` is never called here). -/
def executeTool (reg : ToolRegistry) (name : String) (args : Args) : Except HAIError Value :=
  match reg.get name with
  | none => .error (.toolRegistrationError ("Tool '" ++ name ++ "' not found in registry"))
  | some entry =>
    match entry.fn args with
    | .ok v => .ok v
    | .error e => .error (.jsError ("Tool execution failed: " ++ e.message))

/-- One step of `mergeToolLists`' inner `forEach`: skip a tool whose name
was seen, else record the name and append the tool. -/
def mergeStep (acc : List String × List Tool) (t : Tool) : List String × List Tool :=
  if acc.1.any (fun s => s = t.fname) then acc
  else (acc.1 ++ [t.fname], acc.2 ++ [t])

/-- `mergeToolLists(...toolLists)`: flattens the given lists (skipping
absent ones) keeping the first occurrence of every name. -/
def mergeToolLists (toolLists : List (Option (List Tool))) : List Tool :=
  (toolLists.foldl
    (fun acc lo => match lo with
      | none => acc
      | some l => l.foldl mergeStep acc)
    ([], [])).2

/-! ## MCP (`src/mcp/types.ts`, `src/mcp/client.ts`, `src/mcp/manager.ts`) -/

/-- `MCPServerConfig`: one of the stdio fields (`command`, `args`, `env`)
or the HTTP field (`url`).  `none` models an absent field. -/
structure MCPServerConfig where
  command : Option String := none
  args : Option (List String) := none
  env : Option (List (String × String)) := none
  url : Option String := none
deriving DecidableEq, Repr

/-- JavaScript truthiness of an optional string field: present and
non-empty. -/
def optTruthy : Option String → Bool
  | some s => ¬ s = ""
  | none => false

/-- `MCPServersConfig { mcpServers }`: the server-name-keyed record, an
association list in key order. -/
structure MCPServersConfig where
  mcpServers : List (String × MCPServerConfig)
deriving DecidableEq, Repr

/-- `MCPTool { name, description, inputSchema }`; `none` models an absent
(or falsy) `inputSchema`. -/
structure MCPTool where
  name : String
  description : String
  inputSchema : Option ParametersSchema := none
deriving DecidableEq, Repr

/-- One element of an `MCPToolResult.content` array. -/
structure MCPContentItem where
  type : String
  text : Option String := none
  data : Option String := none
  mimeType : Option String := none
deriving DecidableEq, Repr

/-- `MCPToolResult { content, isError? }`; an absent `isError` is the
falsy `false`. -/
structure MCPToolResult where
  content : List MCPContentItem
  isError : Bool := false
deriving DecidableEq, Repr

/-- `JSON.stringify` of one content item: present fields in declaration
order (`type`, `text`, `data`, `mimeType`). -/
def stringifyContentItem (i : MCPContentItem) : String :=
  let fields : List (String × Option String) :=
    [("type", some i.type), ("text", i.text), ("data", i.data), ("mimeType", i.mimeType)]
  "\x7b" ++
    joinWith "," (fields.filterMap
      (fun kv => kv.2.map (fun v => jsonQuote kv.1 ++ ":" ++ jsonQuote v))) ++ "\x7d"

/-- `JSON.stringify` of a content array. -/
def stringifyContent (content : List MCPContentItem) : String :=
  "[" ++ joinWith "," (content.map stringifyContentItem) ++ "]"

/-- `MCPConnection` (without the `resources` array, always empty in the
mock client and never read by the subsystem). -/
structure MCPConnection where
  serverName : String
  config : MCPServerConfig
  initialized : Bool
  tools : List MCPTool
deriving DecidableEq, Repr

/-- The `MCPClient` state: the `connections` map. -/
structure MCPClientState where
  connections : List (String × MCPConnection)
deriving DecidableEq, Repr

/-- `Map.set`: replace the entry of a present key in place, append a fresh
key. -/
def mapSet {α : Type} (l : List (String × α)) (k : String) (v : α) : List (String × α) :=
  if l.any (fun p => p.1 = k) then
    l.map (fun p => if p.1 = k then (k, v) else p)
  else l ++ [(k, v)]

/-- `initializeStdioConnection`: the mock marks the connection initialized
with the one `<server>_tool` tool. -/
def stdioConnection (serverName : String) (config : MCPServerConfig) : MCPConnection :=
  { serverName, config, initialized := true,
    tools := [{ name := serverName ++ "_tool",
                description := "Tool from " ++ serverName ++ " server",
                inputSchema := some { type := "object" } }] }

/-- `initializeHttpConnection`: the mock marks the connection initialized
with the one `<server>_http_tool` tool. -/
def httpConnection (serverName : String) (config : MCPServerConfig) : MCPConnection :=
  { serverName, config, initialized := true,
    tools := [{ name := serverName ++ "_http_tool",
                description := "HTTP tool from " ++ serverName ++ " server",
                inputSchema := some { type := "object" } }] }

/-- `MCPClient.connect(serverName, config)`: the stdio branch when
`config.command` is truthy, the HTTP branch when `config.url` is truthy,
otherwise a thrown `MCPError` which the method's own catch wraps in
`MCPError("Failed to connect to MCP server …")`.  `isMCPAvailable()` is the
mock that always returns true. -/
def MCPClient.connect (client : MCPClientState) (serverName : String)
    (config : MCPServerConfig) : Except HAIError MCPClientState :=
  if optTruthy config.command then
    .ok ⟨mapSet client.connections serverName (stdioConnection serverName config)⟩
  else if optTruthy config.url then
    .ok ⟨mapSet client.connections serverName (httpConnection serverName config)⟩
  else
    .error (.mcpError
      ("Failed to connect to MCP server " ++ serverName ++ ": " ++
        "Invalid MCP server configuration for " ++ serverName)
      (some serverName))

/-- `MCPClient.getAvailableTools()`: the tools of every initialized
connection, in connection order. -/
def MCPClient.getAvailableTools (client : MCPClientState) : List MCPTool :=
  ((client.connections.map (fun p => p.2)).filter (fun c => c.initialized)).map
    (fun c => c.tools) |>.flatten

/-- `MCPClient.callTool(toolName, args)`: finds the first connection whose
tool list contains the name; a missing tool or an uninitialized owning
connection throws `MCPError`; otherwise the mock returns the one-text-item
mock response.  The argument object is logged, not read. -/
def MCPClient.callTool (client : MCPClientState) (toolName : String) (_args : Args) :
    Except HAIError MCPToolResult :=
  match (client.connections.map (fun p => p.2)).find?
      (fun c => c.tools.any (fun t => t.name = toolName)) with
  | none => .error (.mcpError ("Tool " ++ toolName ++ " not found in any connected MCP server") none)
  | some conn =>
    if conn.initialized then
      .ok { content := [{ type := "text",
                          text := some ("Mock response from MCP tool " ++ toolName) }] }
    else
      .error (.mcpError ("MCP server " ++ conn.serverName ++ " not initialized") none)

/-- The `MCPManager` state: its client and the `initialized` flag. -/
structure MCPManager where
  client : MCPClientState
  initialized : Bool

/-- `new MCPManager()`. -/
def MCPManager.fresh : MCPManager := ⟨⟨[]⟩, false⟩

/-- One settled connection attempt of `MCPManager.initialize`'s fan-out:
a successful `connect` updates the client, a failure is caught
(`console.warn`) and leaves it unchanged. -/
def connStep (cl : MCPClientState) (p : String × MCPServerConfig) : MCPClientState :=
  match MCPClient.connect cl p.1 p.2 with
  | .ok cl2 => cl2
  | .error _ => cl

/-- Whether `MCPClient.connect` succeeds on a config: one of the two
transport fields is truthy. -/
def connectOk (c : MCPServerConfig) : Bool :=
  optTruthy c.command || optTruthy c.url

/-- `MCPManager.initialize(config)` (named `initServers` here because
`initialize` is a reserved command keyword in Lean): already-initialized
managers return unchanged; otherwise every server entry is connected, each
connection failure caught and logged (`console.warn`) without aborting the
others, and the manager becomes initialized.  The method itself never
rejects. -/
def MCPManager.initServers (m : MCPManager) (config : MCPServersConfig) :
    Except HAIError MCPManager :=
  if m.initialized then .ok m
  else .ok ⟨config.mcpServers.foldl connStep m.client, true⟩

/-- `convertMCPToolToOpenAI`: pass the server schema through when present,
else the empty object schema. -/
def convertMCPToolToOpenAI (t : MCPTool) : Tool :=
  { type := "function",
    function := { name := t.name, description := t.description,
                  parameters := t.inputSchema.getD { type := "object" } } }

/-- `MCPManager.getToolsAsOpenAIFormat()`: empty before initialization. -/
def MCPManager.getToolsAsOpenAIFormat (m : MCPManager) : List Tool :=
  if m.initialized then (MCPClient.getAvailableTools m.client).map convertMCPToolToOpenAI
  else []

/-- `MCPManager.isMCPTool(toolName)`. -/
def MCPManager.isMCPTool (m : MCPManager) (toolName : String) : Bool :=
  m.initialized && (MCPClient.getAvailableTools m.client).any (fun t => t.name = toolName)

/-- The body of `MCPManager.executeTool` over the outcome of the client
call (the remote round trip, injected so the translation can be stated
for every remote result): the not-initialized guard, then the remote
`isError` flag becomes a thrown `MCPError` (rewrapped by the method's own
catch), a thrown client error is rewrapped the same way, and a success is
flattened by joining the `text`-typed content parts with newlines — or,
when that joined text is empty (falsy), `JSON.stringify` of the whole
content array. -/
def MCPManager.executeToolWith (toolName : String) (initialized : Bool)
    (callOutcome : Except HAIError MCPToolResult) : Except HAIError String :=
  if initialized then
    match callOutcome with
    | .error e =>
      .error (.mcpError ("Failed to execute MCP tool " ++ toolName ++ ": " ++ e.message) none)
    | .ok result =>
      if result.isError then
        .error (.mcpError
          ("Failed to execute MCP tool " ++ toolName ++ ": " ++
            "MCP tool execution failed: " ++ stringifyContent result.content)
          none)
      else
        let textContent := joinWith "\n"
          ((result.content.filter (fun i => i.type = "text")).map (fun i => i.text.getD ""))
        .ok (if textContent = "" then stringifyContent result.content else textContent)
  else .error (.mcpError "MCP manager not initialized" none)

/-- `MCPManager.executeTool(toolName, args)`. -/
def MCPManager.executeTool (m : MCPManager) (toolName : String) (args : Args) :
    Except HAIError String :=
  MCPManager.executeToolWith toolName m.initialized (MCPClient.callTool m.client toolName args)

/-- `MCPManager.processConfiguration(config)`: a fresh manager is
initialized (failures caught, returning the manager with no tools) and its
declarations extracted. -/
def MCPManager.processConfiguration (config : MCPServersConfig) :
    MCPManager × List Tool :=
  match MCPManager.initServers MCPManager.fresh config with
  | .ok manager => (manager, manager.getToolsAsOpenAIFormat)
  | .error _ => (MCPManager.fresh, [])

/-! ## The client (`src/client.ts`) -/

/-- The slice of the `HelpingAI` client state the tool paths read: the
optional MCP manager and the global registry of `core.ts`. -/
structure ClientState where
  mcpManager : Option MCPManager
  registry : ToolRegistry

/-- `this.mcpManager?.isMCPTool(toolName)`: optional chaining, false when
no manager is set. -/
def mcpOwns (mgr : Option MCPManager) (toolName : String) : Bool :=
  match mgr with
  | some m => m.isMCPTool toolName
  | none => false

/-- `executeBuiltinTool(toolName, args)`: the client's mock built-in
execution. -/
def executeBuiltinTool (toolName : String) (args : Args) : Except HAIError String :=
  if toolName = "code_interpreter" then
    .ok ("Code execution result for: " ++ stringifyArgs args)
  else if toolName = "web_search" then
    .ok ("Web search results for: " ++ stringifyArgs args)
  else
    .error (.toolExecutionError ("Unknown built-in tool: " ++ toolName) (some toolName))

/-- The registry-or-builtin tail of `HelpingAI.call`'s try block. -/
def HelpingAI.callLocal (reg : ToolRegistry) (toolName : String) (args : Args) :
    Except HAIError Value :=
  if reg.has toolName then
    executeTool reg toolName args
  else if toolName = "code_interpreter" ∨ toolName = "web_search" then
    (executeBuiltinTool toolName args).map Value.str
  else
    .error (.toolExecutionError ("Tool '" ++ toolName ++ "' not found") (some toolName))

/-- The try block of `HelpingAI.call`: MCP first, then the registry, then
the built-in names, else a thrown not-found `ToolExecutionError`. -/
def HelpingAI.callInner (st : ClientState) (toolName : String) (args : Args) :
    Except HAIError Value :=
  match st.mcpManager with
  | some mgr =>
    if mgr.isMCPTool toolName then (mgr.executeTool toolName args).map Value.str
    else HelpingAI.callLocal st.registry toolName args
  | none => HelpingAI.callLocal st.registry toolName args

/-- `HelpingAI.call(toolName, args)`: the try block, whose every thrown
error the catch rewraps in
`ToolExecutionError("Failed to execute tool '<name>': <message>", name)`. -/
def HelpingAI.call (st : ClientState) (toolName : String) (args : Args) :
    Except HAIError Value :=
  match HelpingAI.callInner st toolName args with
  | .ok v => .ok v
  | .error e =>
    .error (.toolExecutionError
      ("Failed to execute tool '" ++ toolName ++ "': " ++ e.message) (some toolName))

/-- One entry of a `ChatCompletionRequest.tools` array: a built-in tool
name string, an `{ mcpServers: … }` configuration block, or an
OpenAI-format tool. -/
inductive ToolInput where
  | name (s : String)
  | mcpConfig (cfg : MCPServersConfig)
  | tool (t : Tool)

/-- One entry of the processed tool list `processTools` builds for the
model request: a bare built-in name passed through, or a declaration. -/
inductive ProcessedTool where
  | name (s : String)
  | tool (t : Tool)
deriving DecidableEq, Repr

/-- `HelpingAI.processTools(tools)`: an absent or empty list yields
`undefined`; otherwise each entry is pushed — a string as is, an MCP
configuration via `MCPManager.processConfiguration` (its tools spliced in
and the manager stored on the client), any other declaration as is.  No
deduplication happens here. -/
def HelpingAI.processTools (mcp0 : Option MCPManager) (tools : List ToolInput) :
    Option MCPManager × Option (List ProcessedTool) :=
  if tools.isEmpty then (mcp0, none)
  else
    let r := tools.foldl
      (fun (acc : Option MCPManager × List ProcessedTool) ti =>
        match ti with
        | .name s => (acc.1, acc.2 ++ [.name s])
        | .mcpConfig cfg =>
          let mt := MCPManager.processConfiguration cfg
          (some mt.1, acc.2 ++ mt.2.map ProcessedTool.tool)
        | .tool t => (acc.1, acc.2 ++ [.tool t]))
      (mcp0, [])
    (r.1, some r.2)

/-! ## Built-in tools (`src/tools/builtin/base.ts`, `web_search.ts`,
`code_interpreter.ts`) -/

/-- JS `Set` built from a list: the distinct elements in first-insertion
order. -/
def firstDedup (l : List String) : List String :=
  go [] l
where
  go (seen : List String) : List String → List String
    | [] => []
    | k :: rest => if seen.any (fun s => s = k) then go seen rest
                   else k :: go (seen ++ [k]) rest

/-- `BuiltinToolBase.validateParameters(params)`: the first required
parameter missing from the argument object throws; then any provided key
outside the schema's properties throws.  Both are plain `Error`s. -/
def validateParameters (toolName : String) (parameters : ParametersSchema)
    (params : Args) : Except HAIError Unit :=
  match parameters.required.find? (fun p => (lookupArg params p).isNone) with
  | some p =>
    .error (.jsError ("Missing required parameter '" ++ p ++ "' for tool '" ++ toolName ++ "'"))
  | none =>
    let allowedParams := parameters.properties.map (fun kv => kv.1)
    let providedParams := firstDedup (params.map (fun kv => kv.1))
    let unknownParams := providedParams.filter (fun k => ¬ allowedParams.any (fun a => a = k))
    if unknownParams.isEmpty then .ok ()
    else .error (.jsError
      ("Unknown parameters for tool '" ++ toolName ++ "': " ++ joinWith ", " unknownParams))

/-- The static schema of `WebSearchTool`. -/
def webSearchParameters : ParametersSchema :=
  { type := "object",
    properties :=
      [("query", { type := "string",
                   description := "Search query to look up on the web" }),
       ("max_results", { type := "integer",
                         description := "Maximum number of search results to return (default: 5, max: 10)",
                         default := some (.int 5), minimum := some 1, maximum := some 10 })],
    required := ["query"] }

/-- One result object of the Snapzion search response. -/
structure SearchResult where
  title : String
  snippet : String
  url : String
  source : String
  position : Int
deriving DecidableEq, Repr

/-- The string an argument value contributes where the tool reads it as a
string (`kwargs.query as string`); a missing or non-string value is out of
the modelled behaviour and reads as the empty string. -/
def strOrEmpty : Option Value → String
  | some (.str s) => s
  | _ => ""

/-- `kwargs.max_results || 5`: JS falsiness sends an absent value — and the
number 0 — to the default. -/
def intOrDefault (d : Int) : Option Value → Int
  | some (.int n) => if n = 0 then d else n
  | _ => d

/-- `formatResults(results, query)` of the web-search tool: the header line
then, per result, the numbered title, snippet, URL (when non-empty), source
and position lines, joined with newlines. -/
def formatResults (results : List SearchResult) (query : String) : String :=
  let header := "Web search results for: '" ++ query ++ "'\n"
  let blocks := results.enum.map (fun (iw : Nat × SearchResult) =>
    let index : Int := Int.ofNat iw.1 + 1
    let r := iw.2
    let title := if r.title = "" then "No title" else r.title
    let snippet := if r.snippet = "" then "No description available" else r.snippet
    let source := if r.source = "" then "Unknown" else r.source
    let position := if r.position = 0 then index else r.position
    [toString index ++ ". **" ++ title ++ "**", "   " ++ snippet] ++
      (if r.url = "" then [] else ["   🔗 URL: " ++ r.url]) ++
      ["   📍 Source: " ++ source] ++
      (if position = 0 then [] else ["   📊 Position: #" ++ toString position]) ++
      [""])
  joinWith "\n" (header :: blocks.flatten)

/-- `WebSearchTool.execute(kwargs)`, with the Snapzion network round trip
injected as `searchFn` (the source's `searchSnapzion`, which never throws:
its own catch turns failures into an error-shaped result list).  Validation
runs first; then an all-whitespace query short-circuits; then the search
runs and its results are formatted. -/
def WebSearchTool.execute (searchFn : String → Int → List SearchResult)
    (kwargs : Args) : Except HAIError String := do
  let _ ← validateParameters "web_search" webSearchParameters kwargs
  let query := strOrEmpty (lookupArg kwargs "query")
  let maxResults := min (intOrDefault 5 (lookupArg kwargs "max_results")) 10
  if query.trim = "" then return "No search query provided."
  let results := searchFn query maxResults
  if results.isEmpty then return ("No search results found for query: " ++ query)
  return formatResults results query

/-- The static schema of `CodeInterpreterTool`. -/
def codeInterpreterParameters : ParametersSchema :=
  { type := "object",
    properties := [("code", { type := "string",
                              description := "Python code to execute" })],
    required := ["code"] }

/-- `CodeInterpreterTool.execute(kwargs)`, with the external Python
subprocess (`checkPythonAvailability` + `executeCodeSimple`, whose catches
turn any failure into a result string) injected as `runner`.  Validation
runs first; then an all-whitespace code string short-circuits. -/
def CodeInterpreterTool.execute (runner : String → String) (kwargs : Args) :
    Except HAIError String := do
  let _ ← validateParameters "code_interpreter" codeInterpreterParameters kwargs
  let code := strOrEmpty (lookupArg kwargs "code")
  if code.trim = "" then return "No code provided to execute."
  return runner code

/-! ## Schema inference (`src/tools/schema.ts`)

`generateToolSchema` derives an OpenAI-format declaration from the textual
source of a callable (`fn.toString()`).  Its regular expressions are
modelled as explicit functions over `List Char`; each function's doc
comment names the regex clause it implements, including the backtracking
the JavaScript engine would perform. -/

/-- JS `\w`: ASCII letters, digits, underscore. -/
def isWordChar (c : Char) : Bool :=
  c.isAlpha || c.isDigit || c = '_'

/-- JS `\s`, for the ASCII whitespace that occurs in function sources. -/
def isSpaceChar (c : Char) : Bool :=
  c = ' ' || c = '\t' || c = '\n' || c = '\r'

/-- `String.prototype.trim()`. -/
def trimL (cs : List Char) : List Char :=
  ((cs.dropWhile isSpaceChar).reverse.dropWhile isSpaceChar).reverse

/-- `String.prototype.split(',')`. -/
def splitComma : List Char → List (List Char)
  | [] => [[]]
  | c :: rest =>
    match splitComma rest with
    | [] => [[]]
    | cur :: more => if c = ',' then [] :: cur :: more else (c :: cur) :: more

/-- Does `s` start with `pat`? -/
def startsWithL : List Char → List Char → Bool
  | _, [] => true
  | [], _ :: _ => false
  | a :: as, b :: bs => (a = b) && startsWithL as bs

/-- Does `s` contain `pat` as a contiguous substring? -/
def hasSubstrL : List Char → List Char → Bool
  | [], pat => pat.isEmpty
  | a :: rest, pat => startsWithL (a :: rest) pat || hasSubstrL rest pat

/-- The apostrophe character (written by code point to keep string
literals free of quote characters). -/
def singleQuoteChar : Char := Char.ofNat 39

/-- Opening and closing brace characters, by code point. -/
def braceOpenChar : Char := Char.ofNat 123

def braceCloseChar : Char := Char.ofNat 125

/-- `/\(([^)]*)\)/`: the text between the first `(` and the first `)`
after it (the match fails when no such pair exists). -/
def parenContent : List Char → Option (List Char)
  | [] => none
  | '(' :: rest =>
    if rest.any (fun c => c = ')') then some (rest.takeWhile (fun c => ¬ c = ')'))
    else none
  | _ :: rest => parenContent rest

/-- `parseInt` of a digit string. -/
def strToInt (cs : List Char) : Int :=
  Int.ofNat (cs.foldl (fun n c => n * 10 + (c.toNat - 48)) 0)

/-- `/^\d*\.\d+$/`. -/
def isFloatLit (cs : List Char) : Bool :=
  let ds := cs.takeWhile Char.isDigit
  match cs.drop ds.length with
  | c :: frac => c = '.' && (¬ frac.isEmpty) && frac.all Char.isDigit
  | [] => false

/-- `parseDefaultValue(value)` (`value` already trimmed): the literal
keywords, then integer and float numerals, then quoted strings (both quote
kinds, `slice(1, -1)`), else the raw text. -/
def parseDefaultValue (value : String) : Value :=
  let cs := value.toList
  if value = "undefined" ∨ value = "null" then .null
  else if value = "true" then .bool true
  else if value = "false" then .bool false
  else if (¬ cs.isEmpty) ∧ cs.all Char.isDigit then .int (strToInt cs)
  else if isFloatLit cs then .float value
  else if cs.head? = some '"' ∧ cs.getLast? = some '"' then
    .str (String.mk ((cs.drop 1).dropLast))
  else if cs.head? = some singleQuoteChar ∧ cs.getLast? = some singleQuoteChar then
    .str (String.mk ((cs.drop 1).dropLast))
  else .str value

/-- `mapTypeToJsonSchema(type)`: strip all whitespace, lower-case, then the
five substring checks in source order, defaulting to `string`. -/
def mapTypeToJsonSchema (type : String) : String :=
  let clean := (type.toList.filter (fun c => ¬ isSpaceChar c)).map Char.toLower
  if hasSubstrL clean ("string".toList) then "string"
  else if hasSubstrL clean ("number".toList) then "number"
  else if hasSubstrL clean ("boolean".toList) then "boolean"
  else if hasSubstrL clean ("array".toList) || hasSubstrL clean ("[]".toList) then "array"
  else if hasSubstrL clean ("object".toList) || hasSubstrL clean [braceOpenChar, braceCloseChar]
    then "object"
  else "string"

/-- `(.+)$` of the parameter regex: at least one character, `.` excluding
newlines, `$` at the end of the string or just before one final newline. -/
def dotPlusEnd (r : List Char) : Option (List Char) :=
  if r.isEmpty then none
  else if r.all (fun c => ¬ c = '\n') then some r
  else if r.getLast? = some '\n' ∧ (¬ r.dropLast.isEmpty) ∧
      r.dropLast.all (fun c => ¬ c = '\n') then
    some r.dropLast
  else none

/-- `\s*(.+)$` after the `=`: the greedy `\s*` gives spaces back one at a
time (longest space run first) until `(.+)$` matches. -/
def spacesThenDotPlus (r : List Char) : Option (List Char) :=
  go ((r.takeWhile isSpaceChar).length)
where
  go : Nat → Option (List Char)
    | 0 => dotPlusEnd r
    | Nat.succ k =>
      match dotPlusEnd (r.drop (k + 1)) with
      | some d => some d
      | none => go k

/-- `(?:\s*=\s*(.+))?$`: the optional default group, preferred present
(`some (some d)`), else the `$` anchor alone (`some none` when the rest is
empty or one final newline), else no match. -/
def defaultOrEnd (r : List Char) : Option (Option (List Char)) :=
  let viaDefault : Option (List Char) :=
    match r.dropWhile isSpaceChar with
    | '=' :: r2 => spacesThenDotPlus r2
    | _ => none
  match viaDefault with
  | some d => some (some d)
  | none => if r.isEmpty ∨ r = ['\n'] then some none else none

/-- `([^=]+?)` followed by `(?:\s*=\s*(.+))?$`: the lazy capture grows one
character (never `=`) at a time until the tail matches.  `pre` is the
capture built so far. -/
def lazyCapture (pre : List Char) : List Char → Option (List Char × Option (List Char))
  | [] => none
  | c :: rs =>
    if c = '=' then none
    else
      match defaultOrEnd rs with
      | some d => some (pre ++ [c], d)
      | none => lazyCapture (pre ++ [c]) rs

/-- The `\s*` after the `:` of the type group: greedy, giving spaces back
one at a time into the lazy `[^=]+?` capture when the longer run fails. -/
def typeSpaces (r2 : List Char) : Nat → Option (List Char × Option (List Char))
  | 0 => lazyCapture [] r2
  | Nat.succ k =>
    match lazyCapture [] (r2.drop (k + 1)) with
    | some td => some td
    | none => typeSpaces r2 k

/-- `(?:\s*:\s*([^=]+?))?` with the rest of the pattern: present only when
a `:` follows the (maximal) leading spaces and the lazy capture finds a
tail match. -/
def typeBranch (r : List Char) : Option (List Char × Option (List Char)) :=
  match r.dropWhile isSpaceChar with
  | ':' :: r2 => typeSpaces r2 ((r2.takeWhile isSpaceChar).length)
  | _ => none

/-- The tail of the parameter regex after the name:
`(?:\s*:\s*([^=]+?))?(?:\s*=\s*(.+))?$`, type group preferred present. -/
def tailMatch (r : List Char) : Option (Option (List Char) × Option (List Char)) :=
  match typeBranch r with
  | some (t, d) => some (some t, d)
  | none =>
    match defaultOrEnd r with
    | some d => some (none, d)
    | none => none

/-- `/(\w+)(?:\s*:\s*([^=]+?))?(?:\s*=\s*(.+))?$/`: the match is tried at
every position left to right; at a position starting a word character the
name is the maximal `\w+` run there (no shorter run can let the tail
match, since the tail would then have to start with a word character). -/
def findNameMatch : List Char → Option (List Char × Option (List Char) × Option (List Char))
  | [] => none
  | c :: rest =>
    if isWordChar c then
      match tailMatch ((c :: rest).dropWhile isWordChar) with
      | some (t, d) => some ((c :: rest).takeWhile isWordChar, t, d)
      | none => findNameMatch rest
    else findNameMatch rest

/-- The record `parseParameter` builds for one parameter. -/
structure ParamInfo where
  name : String
  type : String
  required : Bool
  default : Option Value
deriving DecidableEq, Repr

/-- `parseParameter(param)`: the regex above; `required: !defaultValue`,
`type: typeAnnotation?.trim() || 'any'`,
`default: defaultValue ? parseDefaultValue(defaultValue.trim()) : undefined`. -/
def parseParameter (param : String) : Option ParamInfo :=
  match findNameMatch param.toList with
  | none => none
  | some (nm, tyAnn, dfltText) =>
    some { name := String.mk (trimL nm),
           type := (match tyAnn with
                    | some t =>
                      let t2 := trimL t
                      if t2.isEmpty then "any" else String.mk t2
                    | none => "any"),
           required := dfltText.isNone,
           default := dfltText.map (fun d => parseDefaultValue (String.mk (trimL d))) }

/-- `extractParameters(functionString)`: the first parenthesized group,
split on commas, each piece trimmed and parsed; parse failures are
skipped. -/
def extractParameters (functionString : String) : List ParamInfo :=
  match parenContent functionString.toList with
  | none => []
  | some content =>
    if (trimL content).isEmpty then []
    else ((splitComma content).map (fun p => String.mk (trimL p))).filterMap parseParameter

/-- One `@param` record of a JSDoc block. -/
structure JSDocParam where
  description : String
  type : Option String
deriving DecidableEq, Repr

/-- The result of `parseJSDoc`. -/
structure JSDocInfo where
  description : String
  params : List (String × JSDocParam)
deriving DecidableEq, Repr

/-- `[\s\S]*?\*\//`: the (lazy) text up to the first `*/`. -/
def takeUntilClose : List Char → Option (List Char)
  | [] => none
  | '*' :: '/' :: _ => some []
  | c :: rest => (takeUntilClose rest).map (fun t => c :: t)

/-- `/\/\*\*([\s\S]*?)\*\//`: the text between the leftmost doc-comment
opener (slash star star) that is followed by a closer (star slash) and
that first closer. -/
def jsdocContent : List Char → Option (List Char)
  | [] => none
  | c :: rest =>
    match c, rest with
    | '/', '*' :: '*' :: rest2 =>
      (match takeUntilClose rest2 with
       | some content => some content
       | none => jsdocContent rest)
    | _, _ => jsdocContent rest

/-- `String.prototype.split('\n')`. -/
def splitOnNL : List Char → List (List Char)
  | [] => [[]]
  | c :: rest =>
    match splitOnNL rest with
    | [] => [[]]
    | cur :: more => if c = '\n' then [] :: cur :: more else (c :: cur) :: more

/-- `line.replace(/^\s*\*\s?/, '')`: strip leading spaces, one `*` and at
most one following whitespace; a line not matching is unchanged. -/
def stripStar (line : List Char) : List Char :=
  match line.dropWhile isSpaceChar with
  | '*' :: rest =>
    (match rest with
     | c :: rs => if isSpaceChar c then rs else rest
     | [] => [])
  | _ => line

/-- The JSDoc lines: split, strip the leading `*`, trim, drop empties. -/
def jsdocLines (content : List Char) : List (List Char) :=
  ((splitOnNL content).map (fun l => trimL (stripStar l))).filter (fun l => ¬ l.isEmpty)

/-- `\{([^}]+)\}\s+` of the `@param` regex, returning the captured type
and the rest after the mandatory whitespace. -/
def bracedType (r1 : List Char) : Option (List Char × List Char) :=
  match r1 with
  | [] => none
  | c :: r2 =>
    if c = braceOpenChar then
      let ty := r2.takeWhile (fun d => ¬ d = braceCloseChar)
      match r2.drop ty.length with
      | d :: r4 =>
        if d = braceCloseChar ∧ ¬ ty.isEmpty then
          let sp2 := r4.takeWhile isSpaceChar
          if sp2.isEmpty then none else some (ty, r4.drop sp2.length)
        else none
      | [] => none
    else none

/-- `(\w+)\s+(.+)` of the `@param` regex.  The lines this runs on are
already trimmed and newline-free, so the greedy `\s+`/`(.+)` interplay
needs no backtracking: the description is simply the non-empty rest. -/
def wordThenDesc (r : List Char) : Option (List Char × List Char) :=
  let w := r.takeWhile isWordChar
  if w.isEmpty then none
  else
    let r2 := r.drop w.length
    let sp := r2.takeWhile isSpaceChar
    if sp.isEmpty then none
    else
      let d := r2.drop sp.length
      if d.isEmpty then none else some (w, d)

/-- `@param\s+(?:\{([^}]+)\}\s+)?(\w+)\s+(.+)` positioned right after the
literal `@param`: mandatory whitespace, then the brace group preferred
present with fallback to absent when the rest fails. -/
def paramAt (r : List Char) : Option (Option (List Char) × List Char × List Char) :=
  let sp := r.takeWhile isSpaceChar
  if sp.isEmpty then none
  else
    let r1 := r.drop sp.length
    match bracedType r1 with
    | some (ty, r2) =>
      (match wordThenDesc r2 with
       | some (w, d) => some (some ty, w, d)
       | none =>
         match wordThenDesc r1 with
         | some (w, d) => some (none, w, d)
         | none => none)
    | none =>
      match wordThenDesc r1 with
      | some (w, d) => some (none, w, d)
      | none => none

/-- The unanchored `@param` regex over a whole line: the leftmost
occurrence of the literal `@param` whose tail matches. -/
def findParamMatch : List Char → Option (Option (List Char) × List Char × List Char)
  | [] => none
  | c :: rest =>
    if startsWithL (c :: rest) ("@param".toList) then
      match paramAt ((c :: rest).drop 6) with
      | some x => some x
      | none => findParamMatch rest
    else findParamMatch rest

/-- The `currentSection` state of `parseJSDoc`'s line loop. -/
inductive JSDocSection where
  | descr
  | par
  | other
deriving DecidableEq, Repr

/-- The line loop of `parseJSDoc`: `@param` lines update the params record
(overwriting a repeated name, as object assignment does), other `@` lines
switch the section, and plain lines accumulate while still in the
description section. -/
def jsdocFold : List (List Char) → JSDocSection → List (List Char) →
    List (String × JSDocParam) → List (List Char) × List (String × JSDocParam)
  | [], _, descAcc, params => (descAcc, params)
  | line :: rest, sect, descAcc, params =>
    if startsWithL line ("@param".toList) then
      match findParamMatch line with
      | some (ty, w, d) =>
        jsdocFold rest .par descAcc
          (mapSet params (String.mk w) ⟨String.mk d, ty.map String.mk⟩)
      | none => jsdocFold rest .par descAcc params
    else if line.head? = some '@' then jsdocFold rest .other descAcc params
    else if sect = .descr then jsdocFold rest sect (descAcc ++ [line]) params
    else jsdocFold rest sect descAcc params

/-- `parseJSDoc(functionString)`. -/
def parseJSDoc (functionString : String) : JSDocInfo :=
  match jsdocContent functionString.toList with
  | none => { description := "", params := [] }
  | some content =>
    let r := jsdocFold (jsdocLines content) .descr [] []
    { description := String.mk (trimL (List.intercalate [' '] r.1)),
      params := r.2 }

/-- `a || b` for strings: `b` when `a` is empty (falsy). -/
def strOrElse (a b : String) : String :=
  if a = "" then b else a

/-- The property `generateToolSchema` builds for one parameter
(`param.enum` is never set by `parseParameter`, so the enum copy in the
source is dead and the field stays absent). -/
def propertyFor (docInfo : JSDocInfo) (param : ParamInfo) : PropertySchema :=
  { type := mapTypeToJsonSchema param.type,
    description :=
      strOrElse ((((docInfo.params.find? (fun kv => kv.1 = param.name)).map
        (fun kv => kv.2.description)).getD "")) ("Parameter " ++ param.name) }

/-- One iteration of `generateToolSchema`'s `parameters.forEach`: the
property assignment and the conditional `required.push`. -/
def schemaStep (docInfo : JSDocInfo) (acc : ParametersSchema) (param : ParamInfo) :
    ParametersSchema :=
  { acc with
    properties := mapSet acc.properties param.name (propertyFor docInfo param),
    required := if param.required then acc.required ++ [param.name] else acc.required }

/-- `generateToolSchema(name, fn, description?)` over the function's
source text: parameters extracted and JSDoc parsed, one property per
parameter (object assignment: a repeated name overwrites in place), the
required array collecting every `required` parameter in order. -/
def generateToolSchema (name : String) (functionString : String)
    (description : Option String) : Tool :=
  let parameters := extractParameters functionString
  let docInfo := parseJSDoc functionString
  let ps := parameters.foldl (schemaStep docInfo)
    { type := "object", properties := [], required := [] }
  { type := "function",
    function :=
      { name,
        description :=
          strOrElse (description.getD "") (strOrElse docInfo.description ("Function " ++ name)),
        parameters := ps } }

/-! ## Concrete instances used by the theorems below -/

/-- The source text of a registered callable whose inferred schema
requires `city`. -/
def getWeatherSrc : String :=
  "function getWeather(city) \x7b return city; \x7d"

/-- The declaration inferred for it. -/
def getWeatherTool : Tool :=
  generateToolSchema "getWeather" getWeatherSrc none

/-- A callable whose observable result records that it ran and with which
arguments (its "side effect"). -/
def getWeatherFn : Args → Except HAIError Value :=
  fun args => .ok (.str ("ran with " ++ stringifyArgs args))

/-- The registry after `tools(getWeather)` registered it. -/
def regWithGetWeather : ToolRegistry :=
  ⟨[("getWeather", ⟨getWeatherTool, getWeatherFn⟩)]⟩

/-- Two distinct declarations sharing one name. -/
def dupA : Tool :=
  { function := { name := "dup", description := "first", parameters := {} } }

def dupB : Tool :=
  { function := { name := "dup", description := "second", parameters := {} } }

/-- The flattening `mergeToolLists` deduplicates: absent lists skipped,
the rest concatenated. -/
def flattenToolLists (toolLists : List (Option (List Tool))) : List Tool :=
  (toolLists.map (fun o => o.getD [])).flatten

/-- A manager connected to the one stdio server `srv` (so it offers the
mock tool `srv_tool`). -/
def mcpMgrW : MCPManager :=
  (MCPManager.processConfiguration ⟨[("srv", { command := some "npx", args := some [] })]⟩).1

/-- A registry entry shadowing the MCP tool name `srv_tool` locally. -/
def regShadow : ToolRegistry :=
  ⟨[("srv_tool", ⟨getWeatherTool, fun _ => .ok (.str "local")⟩)]⟩

/-- A remote success result with no text-typed part at all. -/
def imageOnlyResult : MCPToolResult :=
  { content := [{ type := "image", data := some "x" }] }

/-! # Theorems -/

/-! ## Registry uniqueness (claim C4) -/

/-- After `remove(n)` the name is gone, whatever the prior state. -/
theorem ToolRegistry.has_remove_self (r : ToolRegistry) (n : String) :
    (r.remove n).1.has n = false := by
  simp only [ToolRegistry.remove, ToolRegistry.has]
  rw [List.any_eq_false]
  intro p hp
  simp only [List.mem_filter, decide_eq_true_eq] at hp
  simpa using hp.2

/-- A name absent from the registry is absent from its key list. -/
theorem ToolRegistry.not_mem_names_of_has_false (r : ToolRegistry) (n : String)
    (h : r.has n = false) : ¬ n ∈ r.listToolNames := by
  simp only [ToolRegistry.has, List.any_eq_false, decide_eq_true_eq] at h
  simp only [ToolRegistry.listToolNames, List.mem_map]
  rintro ⟨p, hp, rfl⟩
  exact h p hp rfl

/-- Key uniqueness is preserved by every reachable transition. -/
theorem ToolRegistry.reachable_nodup (r : ToolRegistry)
    (h : ToolRegistry.Reachable r) : r.listToolNames.Nodup := by
  induction h with
  | empty => simp [ToolRegistry.empty, ToolRegistry.listToolNames]
  | ofRegister hr hok ih =>
    rename_i r r' n t f
    unfold ToolRegistry.register at hok
    by_cases hhas : r.has n = true
    · simp [hhas] at hok
    · simp only [hhas, if_neg, Bool.not_eq_true] at hok
      injection hok with hok
      subst hok
      simp only [ToolRegistry.listToolNames, List.map_append, List.map_cons, List.map_nil]
      rw [List.nodup_append]
      refine ⟨ih, List.nodup_singleton n, ?_⟩
      intro a ha hb
      simp only [List.mem_cons, List.not_mem_nil, or_false] at hb
      exact ToolRegistry.not_mem_names_of_has_false r n
        (Bool.not_eq_true _ ▸ hhas) (hb ▸ ha)
  | ofRemove hr ih =>
    rename_i r n
    have hsub : ((r.remove n).1.listToolNames).Sublist r.listToolNames := by
      simp only [ToolRegistry.remove, ToolRegistry.listToolNames]
      exact List.Sublist.map _ (List.filter_sublist _)
    exact ih.sublist hsub

/-- Claim C4: registering an already-present name raises
`ToolRegistrationError` (so the state cannot change); after `remove(n)` a
registration of `n` succeeds; and every state reachable through the
registry interface has pairwise-distinct names. -/
theorem registry_name_uniqueness (r : ToolRegistry) (n : String) (t : Tool)
    (f : Args → Except HAIError Value) :
    (r.has n = true →
      r.register n t f =
        .error (.toolRegistrationError ("Tool '" ++ n ++ "' is already registered")))
    ∧ ((r.remove n).1.register n t f =
        .ok ⟨(r.remove n).1.tools ++ [(n, ⟨t, f⟩)]⟩)
    ∧ (ToolRegistry.Reachable r → r.listToolNames.Nodup) := by
  refine ⟨fun h => ?_, ?_, ToolRegistry.reachable_nodup r⟩
  · simp [ToolRegistry.register, h]
  · simp [ToolRegistry.register, ToolRegistry.has_remove_self r n]

/-- Witness: on a concrete one-entry registry, the duplicate registration
of `w` is refused, and after removing `w` the re-registration succeeds. -/
theorem registry_name_uniqueness_witness :
    (regWithGetWeather.register "getWeather" getWeatherTool getWeatherFn =
      .error (.toolRegistrationError ("Tool '" ++ "getWeather" ++ "' is already registered")))
    ∧ ((regWithGetWeather.remove "getWeather").1.register "getWeather" getWeatherTool getWeatherFn =
      .ok ⟨(regWithGetWeather.remove "getWeather").1.tools ++
        [("getWeather", ⟨getWeatherTool, getWeatherFn⟩)]⟩) :=
  ⟨(registry_name_uniqueness regWithGetWeather "getWeather" getWeatherTool getWeatherFn).1 rfl,
   (registry_name_uniqueness regWithGetWeather "getWeather" getWeatherTool getWeatherFn).2.1⟩

/-! ## Required-parameter inference (claim C5) -/

/-- A parsed parameter is required exactly when it captured no default
text, i.e. exactly when its `default` field is absent: both fields of the
record `parseParameter` builds are derived from the same capture. -/
theorem parseParameter_required_iff_no_default (s : String) (p : ParamInfo)
    (h : parseParameter s = some p) : p.required = p.default.isNone := by
  unfold parseParameter at h
  cases hm : findNameMatch s.toList with
  | none => rw [hm] at h; exact absurd h (by simp)
  | some x =>
    obtain ⟨nm, tyAnn, dfltText⟩ := x
    rw [hm] at h
    injection h with h
    subst h
    cases dfltText <;> simp

/-- The `required` array a `forEach` run builds: the accumulator's array
followed by the names of the required parameters in order. -/
theorem schemaFold_required (docInfo : JSDocInfo) (params : List ParamInfo)
    (acc : ParametersSchema) :
    (params.foldl (schemaStep docInfo) acc).required =
      acc.required ++ (params.filter (fun p => p.required)).map (fun p => p.name) := by
  induction params generalizing acc with
  | nil => simp
  | cons p rest ih =>
    simp only [List.foldl_cons, ih, List.filter_cons]
    by_cases hp : p.required = true
    · simp [schemaStep, hp]
    · simp only [Bool.not_eq_true] at hp
      simp [schemaStep, hp]

/-- Claim C5: the inferred declaration's required list is exactly the
names of the parsed parameters that captured no default value — and on
the claim's example `(a: string, b: number = 5)` it is exactly `["a"]`. -/
theorem inferred_required_exactly_no_default :
    (∀ (name functionString : String) (descr : Option String),
      (generateToolSchema name functionString descr).function.parameters.required =
        ((extractParameters functionString).filter (fun p => p.default.isNone)).map
          (fun p => p.name))
    ∧ (generateToolSchema "getWeather"
        "function getWeather(a: string, b: number = 5) \x7b return a; \x7d"
        none).function.parameters.required = ["a"] := by
  constructor
  · intro name functionString descr
    show (List.foldl (schemaStep (parseJSDoc functionString))
        { type := "object", properties := [], required := [] }
        (extractParameters functionString)).required = _
    rw [schemaFold_required]
    simp only [List.nil_append]
    congr 1
    apply List.filter_congr
    intro p hp
    unfold extractParameters at hp
    cases hpc : parenContent functionString.toList with
    | none => rw [hpc] at hp; simp at hp
    | some content =>
      rw [hpc] at hp
      by_cases hempty : (trimL content).isEmpty
      · simp [hempty] at hp
      · dsimp only at hp
        rw [if_neg (by simp [hempty])] at hp
        rcases List.mem_filterMap.mp hp with ⟨s, _, hs⟩
        exact parseParameter_required_iff_no_default s p hs
  · decide

/-! ## Missing-required-argument behaviour of the registry path (claim C1)

`executeTool` never consults the schema: `validateToolArguments` of
`schema.js` and the `SchemaValidationError` class exist but are not
invoked anywhere on the invocation path.  The theorem evaluates the
claim's failing input: the registered callable's schema requires `city`,
the call passes `{}`, and the callable runs anyway — its recorded
"side effect" is returned and no error of any kind is raised. -/

/-- On the failing input of claim C1 the inferred schema requires `city`,
yet `call("getWeather", {})` resolves with the callable's own output
(which records that the callable executed on the empty argument object):
no `SchemaValidationError` is raised and the callable's side effects do
occur. -/
theorem call_runs_callable_despite_missing_required :
    getWeatherTool.function.parameters.required = ["city"]
    ∧ HelpingAI.call ⟨none, regWithGetWeather⟩ "getWeather" [] =
        .ok (.str ("ran with " ++ "\x7b\x7d")) := by
  constructor
  · decide
  · rfl

/-! ## The unknown-tool rejection (claims C2 and C10) -/

/-- Counterexample to claim C2 as stated: the rejection of
`invoke("does_not_exist", {})` carries the error class name
`ToolExecutionError` — the same class every execution failure carries —
not a distinct not-found kind named `ToolNotFoundError` (no such class
exists in `errors.ts`). -/
theorem unknown_tool_error_class_cex :
    errNameOf (HelpingAI.call ⟨none, ToolRegistry.empty⟩ "does_not_exist" []) =
      some "ToolExecutionError"
    ∧ ¬ errNameOf (HelpingAI.call ⟨none, ToolRegistry.empty⟩ "does_not_exist" []) =
        some "ToolNotFoundError" := by
  constructor
  · rfl
  · decide

/-- Claim C2 as amended: a name owned by no backend — not an MCP tool, not
registered, not one of the two built-in names — rejects with a
`ToolExecutionError` whose message reports that the tool was not found
(the thrown not-found error, rewrapped by `call`'s catch). -/
theorem unknown_tool_rejects_with_not_found_message (st : ClientState)
    (name : String) (args : Args)
    (h1 : mcpOwns st.mcpManager name = false)
    (h2 : st.registry.has name = false)
    (h3 : ¬ name = "code_interpreter")
    (h4 : ¬ name = "web_search") :
    HelpingAI.call st name args =
      .error (.toolExecutionError
        ("Failed to execute tool '" ++ name ++ "': " ++ ("Tool '" ++ name ++ "' not found"))
        (some name)) := by
  unfold HelpingAI.call HelpingAI.callInner HelpingAI.callLocal
  cases hm : st.mcpManager with
  | none => simp [h2, h3, h4, HAIError.message]
  | some mgr =>
    have : mgr.isMCPTool name = false := by
      simpa [mcpOwns, hm] using h1
    simp [this, h2, h3, h4, HAIError.message]

/-- Witness for the amended claim C2, at the concrete unknown name
`nope` on a client with no MCP manager and an empty registry. -/
theorem unknown_tool_rejects_with_not_found_message_witness :
    HelpingAI.call ⟨none, ToolRegistry.empty⟩ "nope" [] =
      .error (.toolExecutionError
        ("Failed to execute tool '" ++ "nope" ++ "': " ++ ("Tool '" ++ "nope" ++ "' not found"))
        (some "nope")) :=
  unknown_tool_rejects_with_not_found_message ⟨none, ToolRegistry.empty⟩ "nope" []
    rfl rfl (by decide) (by decide)

/-- Claim C10: whatever the state, name and arguments, when
`HelpingAI.call` rejects, the caller sees a `ToolExecutionError` whose
`toolName` is the called name and whose message is the wrapping prefix
naming the tool followed by the inner failure's message — no MCP,
registration or raw callable error escapes unwrapped. -/
theorem call_failures_wrapped_with_tool_name (st : ClientState) (name : String)
    (args : Args) (e : HAIError) (h : HelpingAI.call st name args = .error e) :
    ∃ inner, e = .toolExecutionError
      ("Failed to execute tool '" ++ name ++ "': " ++ inner) (some name) := by
  unfold HelpingAI.call at h
  cases hc : HelpingAI.callInner st name args with
  | ok v => rw [hc] at h; exact absurd h (by simp)
  | error e0 =>
    rw [hc] at h
    injection h with h
    exact ⟨e0.message, h.symm⟩

/-- Witness for claim C10, at a concrete rejected call. -/
theorem call_failures_wrapped_with_tool_name_witness :
    ∃ inner,
      HAIError.toolExecutionError
        ("Failed to execute tool '" ++ "ghost" ++ "': " ++ ("Tool '" ++ "ghost" ++ "' not found"))
        (some "ghost")
      = .toolExecutionError ("Failed to execute tool '" ++ "ghost" ++ "': " ++ inner)
          (some "ghost") :=
  call_failures_wrapped_with_tool_name ⟨none, ToolRegistry.empty⟩ "ghost" [] _ rfl

/-! ## Routing precedence (claim C6) -/

/-- Claim C6: when the MCP manager owns a tool name, `call` delegates to
the MCP path — the try block's result is exactly the MCP execution — and
the overall result does not depend on the registry at all, so a local
entry of the same name is never consulted. -/
theorem invoke_prefers_mcp_over_registry (mgr : MCPManager) (reg : ToolRegistry)
    (name : String) (args : Args) (h : mgr.isMCPTool name = true) :
    HelpingAI.callInner ⟨some mgr, reg⟩ name args =
      (mgr.executeTool name args).map Value.str
    ∧ HelpingAI.call ⟨some mgr, reg⟩ name args =
      HelpingAI.call ⟨some mgr, ToolRegistry.empty⟩ name args := by
  constructor
  · simp [HelpingAI.callInner, h]
  · unfold HelpingAI.call
    simp [HelpingAI.callInner, h]

/-- Witness for claim C6: a manager connected to server `srv` offers
`srv_tool`; a registry entry of the same name returning `"local"` exists,
and the call still answers with the MCP mock response. -/
theorem invoke_prefers_mcp_over_registry_witness :
    HelpingAI.callInner ⟨some mcpMgrW, regShadow⟩ "srv_tool" [] =
      (mcpMgrW.executeTool "srv_tool" []).map Value.str
    ∧ HelpingAI.call ⟨some mcpMgrW, regShadow⟩ "srv_tool" [] =
      HelpingAI.call ⟨some mcpMgrW, ToolRegistry.empty⟩ "srv_tool" [] :=
  invoke_prefers_mcp_over_registry mcpMgrW regShadow "srv_tool" [] (by decide)

/-! ## Partial MCP failure (claim C7) -/

/-- A config on which `connect` fails (neither transport field truthy)
leaves the client unchanged through `connStep` (the failure is caught). -/
theorem connStep_failed (cl : MCPClientState) (p : String × MCPServerConfig)
    (h : connectOk p.2 = false) : connStep cl p = cl := by
  unfold connStep MCPClient.connect
  simp only [connectOk, Bool.or_eq_false_iff] at h
  simp [h.1, h.2]

/-- Failed server entries contribute nothing: the connection fold over a
config equals the fold over its successfully-connecting entries. -/
theorem connFold_filter (servers : List (String × MCPServerConfig)) (cl : MCPClientState) :
    servers.foldl connStep cl =
      (servers.filter (fun p => connectOk p.2)).foldl connStep cl := by
  induction servers generalizing cl with
  | nil => rfl
  | cons p rest ih =>
    by_cases hp : connectOk p.2 = true
    · simp only [List.filter_cons, hp, if_pos, List.foldl_cons]
      exact ih (connStep cl p)
    · simp only [Bool.not_eq_true] at hp
      simp only [List.filter_cons, hp, List.foldl_cons, Bool.false_eq_true, if_neg,
        connStep_failed cl p hp]
      exact ih cl

/-- Claim C7: initialization never rejects, the manager always becomes
initialized, and the declaration list afterwards is exactly the one the
successfully-connected entries alone produce; concretely, a config with
the valid entry `good` and the invalid entry `bad` yields exactly the
tools of `good`. -/
theorem mcp_partial_failure_tolerated (servers : List (String × MCPServerConfig)) :
    ∃ m2 m1,
      MCPManager.initServers MCPManager.fresh ⟨servers⟩ = .ok m2
      ∧ MCPManager.initServers MCPManager.fresh
          ⟨servers.filter (fun p => connectOk p.2)⟩ = .ok m1
      ∧ m2.initialized = true
      ∧ m2.getToolsAsOpenAIFormat = m1.getToolsAsOpenAIFormat
      ∧ (MCPManager.initServers MCPManager.fresh
          ⟨[("good", { command := some "npx", args := some [] }), ("bad", {})]⟩).map
            (fun m => (m.initialized, m.getToolsAsOpenAIFormat))
        = .ok (true,
            [{ type := "function",
               function := { name := "good_tool",
                             description := "Tool from good server",
                             parameters := { type := "object" } } }]) := by
  refine ⟨⟨servers.foldl connStep ⟨[]⟩, true⟩,
    ⟨(servers.filter (fun p => connectOk p.2)).foldl connStep ⟨[]⟩, true⟩,
    by rfl, by rfl, rfl, ?_, by rfl⟩
  simp only [MCPManager.getToolsAsOpenAIFormat]
  rw [connFold_filter]

/-! ## MCP result translation (claim C8) -/

/-- Claim C8 as amended: after initialization, a remote result with the
error flag set makes `executeTool` throw an `MCPError` (the inner throw,
rewrapped by the method's own catch); a remote success is returned as the
`text`-typed content parts joined with newlines — unless that joined text
is empty, in which case the JSON serialization of the whole content array
(non-text parts included) is returned instead. -/
theorem mcp_result_translation (toolName : String) (r : MCPToolResult) :
    (r.isError = true →
      MCPManager.executeToolWith toolName true (.ok r) =
        .error (.mcpError
          ("Failed to execute MCP tool " ++ toolName ++ ": " ++
            "MCP tool execution failed: " ++ stringifyContent r.content) none))
    ∧ (r.isError = false →
      MCPManager.executeToolWith toolName true (.ok r) =
        .ok (let textContent := joinWith "\n"
              ((r.content.filter (fun i => i.type = "text")).map (fun i => i.text.getD ""));
             if textContent = "" then stringifyContent r.content else textContent)) := by
  constructor
  · intro h
    simp [MCPManager.executeToolWith, h]
  · intro h
    simp [MCPManager.executeToolWith, h]

/-- Witness for the amended claim C8: both branches at concrete remote
results — an error-flagged result throws `MCPError`, and a one-text-part
success returns that text. -/
theorem mcp_result_translation_witness :
    MCPManager.executeToolWith "t" true (.ok { content := [], isError := true }) =
      .error (.mcpError
        ("Failed to execute MCP tool " ++ "t" ++ ": " ++
          "MCP tool execution failed: " ++ stringifyContent ([] : List MCPContentItem)) none)
    ∧ MCPManager.executeToolWith "t" true
        (.ok { content := [{ type := "text", text := some "hi" }] }) =
      .ok (let textContent := joinWith "\n"
            (((([{ type := "text", text := some "hi" }] : List MCPContentItem)).filter
              (fun i => i.type = "text")).map (fun i => i.text.getD ""));
           if textContent = "" then
             stringifyContent ([{ type := "text", text := some "hi" }] : List MCPContentItem)
           else textContent) :=
  ⟨(mcp_result_translation "t" { content := [], isError := true }).1 rfl,
   (mcp_result_translation "t" { content := [{ type := "text", text := some "hi" }] }).2 rfl⟩

/-- Counterexample to claim C8 as stated: a success whose content is one
image part and no text part returns the JSON serialization of the content
array — a non-empty string in which the non-text part appears — while the
concatenation of its text-typed parts is empty. -/
theorem mcp_non_text_content_surfaces_cex :
    MCPManager.executeToolWith "img" true (.ok imageOnlyResult) =
      .ok (stringifyContent imageOnlyResult.content)
    ∧ joinWith "\n" ((imageOnlyResult.content.filter (fun i => i.type = "text")).map
        (fun i => i.text.getD "")) = ""
    ∧ ¬ stringifyContent imageOnlyResult.content = "" := by
  refine ⟨rfl, rfl, by decide⟩

/-! ## Built-in validation before execution (claim C9) -/

/-- Building the `Set` loses no member: an element of the list is in its
first-occurrence dedup (or was already among the seen keys). -/
theorem mem_firstDedup_go (l : List String) (seen : List String) (k : String)
    (hk : k ∈ l) : k ∈ firstDedup.go seen l ∨ ∃ s ∈ seen, s = k := by
  induction l generalizing seen with
  | nil => cases hk
  | cons a rest ih =>
    by_cases ha : seen.any (fun s => s = a) = true
    · rw [show firstDedup.go seen (a :: rest) = firstDedup.go seen rest by
        simp [firstDedup.go, ha]]
      rcases List.mem_cons.mp hk with rfl | hk'
      · rcases List.any_eq_true.mp ha with ⟨s, hs, hsa⟩
        exact Or.inr ⟨s, hs, by simpa using hsa⟩
      · exact ih seen hk'
    · rw [show firstDedup.go seen (a :: rest) = a :: firstDedup.go (seen ++ [a]) rest by
        simp [firstDedup.go, ha]]
      rcases List.mem_cons.mp hk with rfl | hk'
      · exact Or.inl (List.mem_cons_self _ _)
      · rcases ih (seen ++ [a]) hk' with h1 | ⟨s, hs, rfl⟩
        · exact Or.inl (List.mem_cons_of_mem _ h1)
        · rcases List.mem_append.mp hs with hs1 | hs2
          · exact Or.inr ⟨s, hs1, rfl⟩
          · simp only [List.mem_singleton] at hs2
            exact Or.inl (hs2 ▸ List.mem_cons_self _ _)

/-- `validateParameters` throws whenever a required parameter is missing
or a provided key is not among the schema's properties. -/
theorem validateParameters_fails (toolName : String) (ps : ParametersSchema)
    (params : Args)
    (h : (∃ p ∈ ps.required, lookupArg params p = none) ∨
         (∃ k ∈ params.map (fun kv => kv.1),
           ¬ k ∈ ps.properties.map (fun kv => kv.1))) :
    ∃ e, validateParameters toolName ps params = .error e := by
  unfold validateParameters
  cases hf : ps.required.find? (fun p => (lookupArg params p).isNone) with
  | some p => exact ⟨_, rfl⟩
  | none =>
    have hreq : ∀ p ∈ ps.required, ¬ (lookupArg params p).isNone = true := by
      intro p hp
      simpa using List.find?_eq_none.mp hf p hp
    rcases h with ⟨p, hp, hnone⟩ | ⟨k, hk, hnk⟩
    · exact absurd (by simp [hnone]) (hreq p hp)
    · have hkd : k ∈ firstDedup (params.map (fun kv => kv.1)) := by
        rcases mem_firstDedup_go _ [] k hk with h1 | ⟨s, hs, _⟩
        · exact h1
        · cases hs
      have hfilter : k ∈ (firstDedup (params.map (fun kv => kv.1))).filter
          (fun k' => ¬ (ps.properties.map (fun kv => kv.1)).any (fun a => a = k')) := by
        rw [List.mem_filter]
        refine ⟨hkd, ?_⟩
        simp only [decide_eq_true_eq]
        intro hany
        rcases List.any_eq_true.mp hany with ⟨a, ha, haa⟩
        simp only [decide_eq_true_eq] at haa
        exact hnk (haa ▸ ha)
      have hne : ((firstDedup (params.map (fun kv => kv.1))).filter
          (fun k' => ¬ (ps.properties.map (fun kv => kv.1)).any (fun a => a = k'))).isEmpty
            = false := by
        cases hE : ((firstDedup (params.map (fun kv => kv.1))).filter
            (fun k' => ¬ (ps.properties.map (fun kv => kv.1)).any (fun a => a = k'))).isEmpty
        · rfl
        · exact absurd (List.isEmpty_iff.mp hE ▸ hfilter) (List.not_mem_nil k)
      dsimp only
      rw [hne]
      exact ⟨_, rfl⟩

/-- Claim C9: for each built-in tool and every argument map, a missing
required parameter or a provided parameter outside the declared
properties makes `execute` reject with the validation error — and the
rejection is the same whatever the injected external effect, so the tool
body never runs. -/
theorem builtin_validates_before_body (kwargs : Args) :
    ((∃ p ∈ webSearchParameters.required, lookupArg kwargs p = none) ∨
      (∃ k ∈ kwargs.map (fun kv => kv.1),
        ¬ k ∈ webSearchParameters.properties.map (fun kv => kv.1)) →
      ∃ e, ∀ searchFn, WebSearchTool.execute searchFn kwargs = .error e)
    ∧ ((∃ p ∈ codeInterpreterParameters.required, lookupArg kwargs p = none) ∨
      (∃ k ∈ kwargs.map (fun kv => kv.1),
        ¬ k ∈ codeInterpreterParameters.properties.map (fun kv => kv.1)) →
      ∃ e, ∀ runner, CodeInterpreterTool.execute runner kwargs = .error e) := by
  constructor
  · intro h
    rcases validateParameters_fails "web_search" webSearchParameters kwargs h with ⟨e, he⟩
    refine ⟨e, fun searchFn => ?_⟩
    unfold WebSearchTool.execute
    rw [he]
    rfl
  · intro h
    rcases validateParameters_fails "code_interpreter" codeInterpreterParameters kwargs h
      with ⟨e, he⟩
    refine ⟨e, fun runner => ?_⟩
    unfold CodeInterpreterTool.execute
    rw [he]
    rfl

/-- Witness for claim C9: the argument object `{ bogus: "x" }` misses the
required parameter of each tool (and is also an unknown key), and both
executors reject identically for every injected effect. -/
theorem builtin_validates_before_body_witness :
    (∃ e, ∀ searchFn, WebSearchTool.execute searchFn [("bogus", Value.str "x")] = .error e)
    ∧ (∃ e, ∀ runner, CodeInterpreterTool.execute runner [("bogus", Value.str "x")] = .error e) :=
  ⟨(builtin_validates_before_body [("bogus", Value.str "x")]).1
      (Or.inl ⟨"query", by decide, by decide⟩),
   (builtin_validates_before_body [("bogus", Value.str "x")]).2
      (Or.inl ⟨"code", by decide, by decide⟩)⟩

/-! ## Deduplication of tool lists (claim C3) -/

/-- Invariant of the merge fold: the seen set is exactly the merged
names. -/
theorem mergeFold_seen (ts : List Tool) (seen : List String) (merged : List Tool)
    (h : seen = merged.map Tool.fname) :
    (ts.foldl mergeStep (seen, merged)).1 =
      (ts.foldl mergeStep (seen, merged)).2.map Tool.fname := by
  induction ts generalizing seen merged with
  | nil => simpa using h
  | cons t rest ih =>
    simp only [List.foldl_cons]
    by_cases hs : seen.any (fun s => s = t.fname) = true
    · rw [show mergeStep (seen, merged) t = (seen, merged) by simp [mergeStep, hs]]
      exact ih seen merged h
    · rw [show mergeStep (seen, merged) t = (seen ++ [t.fname], merged ++ [t]) by
        simp [mergeStep, hs]]
      exact ih _ _ (by simp [h])

/-- The merge fold keeps the merged names pairwise distinct. -/
theorem mergeFold_nodup (ts : List Tool) (seen : List String) (merged : List Tool)
    (h : seen = merged.map Tool.fname) (hnd : (merged.map Tool.fname).Nodup) :
    ((ts.foldl mergeStep (seen, merged)).2.map Tool.fname).Nodup := by
  induction ts generalizing seen merged with
  | nil => simpa using hnd
  | cons t rest ih =>
    simp only [List.foldl_cons]
    by_cases hs : seen.any (fun s => s = t.fname) = true
    · rw [show mergeStep (seen, merged) t = (seen, merged) by simp [mergeStep, hs]]
      exact ih seen merged h hnd
    · rw [show mergeStep (seen, merged) t = (seen ++ [t.fname], merged ++ [t]) by
        simp [mergeStep, hs]]
      refine ih _ _ (by simp [h]) ?_
      rw [List.map_append, List.nodup_append]
      refine ⟨hnd, by simp, ?_⟩
      intro a ha hb
      simp only [List.map_cons, List.map_nil, List.mem_cons, List.not_mem_nil, or_false] at hb
      apply hs
      apply List.any_eq_true.mpr
      exact ⟨a, h ▸ ha, by simp [hb]⟩

/-- First occurrence wins: looking any name up in the fold's output finds
exactly what looking it up in the already-merged part followed by the
pending input finds. -/
theorem mergeFold_find (ts : List Tool) (seen : List String) (merged : List Tool)
    (h : seen = merged.map Tool.fname) (n : String) :
    ((ts.foldl mergeStep (seen, merged)).2).find? (fun t => t.fname = n) =
      (merged ++ ts).find? (fun t => t.fname = n) := by
  induction ts generalizing seen merged with
  | nil => simp
  | cons t rest ih =>
    simp only [List.foldl_cons]
    by_cases hs : seen.any (fun s => s = t.fname) = true
    · rw [show mergeStep (seen, merged) t = (seen, merged) by simp [mergeStep, hs]]
      rw [ih seen merged h]
      rw [List.find?_append, List.find?_append]
      cases hm : merged.find? (fun u => u.fname = n) with
      | some x => rfl
      | none =>
        have hne : ¬ t.fname = n := by
          intro heq
          rcases List.any_eq_true.mp hs with ⟨s, hsmem, hseq⟩
          simp only [decide_eq_true_eq] at hseq
          rw [h] at hsmem
          rcases List.mem_map.mp (hseq ▸ hsmem) with ⟨u, hu, hufn⟩
          have := List.find?_eq_none.mp hm u hu
          simp only [decide_eq_true_eq] at this
          exact this (by rw [hufn, heq])
        simp [List.find?_cons, hne]
    · rw [show mergeStep (seen, merged) t = (seen ++ [t.fname], merged ++ [t]) by
        simp [mergeStep, hs]]
      rw [ih _ _ (by simp [h])]
      simp [List.append_assoc]

/-- The nested `forEach` over the lists equals the single fold over their
flattening. -/
theorem mergeOuter (toolLists : List (Option (List Tool))) (acc : List String × List Tool) :
    toolLists.foldl
      (fun acc lo => match lo with
        | none => acc
        | some l => l.foldl mergeStep acc) acc
    = (flattenToolLists toolLists).foldl mergeStep acc := by
  induction toolLists generalizing acc with
  | nil => rfl
  | cons lo rest ih =>
    cases lo with
    | none =>
      simp only [List.foldl_cons]
      rw [ih]
      simp [flattenToolLists]
    | some l =>
      simp only [List.foldl_cons]
      rw [ih]
      simp [flattenToolLists, List.foldl_append]

/-- Claim C3 as amended, for the deduplicating merge utility: the output
of `mergeToolLists` holds at most one declaration per name, and looking a
name up in it finds exactly the first declaration with that name in the
flattened input — the first occurrence wins. -/
theorem merge_dedups_first_wins (toolLists : List (Option (List Tool))) :
    ((mergeToolLists toolLists).map Tool.fname).Nodup
    ∧ ∀ n, (mergeToolLists toolLists).find? (fun t => t.fname = n) =
        (flattenToolLists toolLists).find? (fun t => t.fname = n) := by
  unfold mergeToolLists
  rw [mergeOuter]
  constructor
  · exact mergeFold_nodup _ [] [] rfl (by simp)
  · intro n
    simpa using mergeFold_find (flattenToolLists toolLists) [] [] rfl n

/-- Counterexample to claim C3 as stated: `processTools` — the resolver
that builds the tools array of the model request — passes two same-named
declarations through unchanged, so the produced list holds two
declarations of the name `dup`. -/
theorem resolver_keeps_duplicates_cex :
    (HelpingAI.processTools none [.tool dupA, .tool dupB]).2 =
      some [.tool dupA, .tool dupB]
    ∧ dupA.fname = dupB.fname
    ∧ ¬ dupA = dupB := by
  exact ⟨rfl, rfl, by decide⟩

end HAI
